import Mathlib

/-!
Verification of the detection-and-patch engine of `src/api/validate-html.js`.

JavaScript strings are modelled as `List Char` (all inputs of interest are
ASCII, so UTF-16 subtleties do not arise).  Each definition below is a direct
shallow embedding of the correspondingly named function of the source file;
external oracles (the DeepSeek suggestion service reached through `axios`,
the puppeteer page-execution oracle, the filesystem) are modelled as explicit
inputs, following the spec's treatment of them as black-box collaborators.
-/

namespace ValidateHtml

def startsWith : List Char → List Char → Bool
  | [], _ => true
  | _ :: _, [] => false
  | a :: t, b :: s => a = b && startsWith t s

def hasSub : List Char → List Char → Bool
  | t, [] => startsWith t []
  | t, s@(_ :: s') =>
    startsWith t s || hasSub t s'

def OccursIn (t s : List Char) : Prop := ∃ u v, s = u ++ t ++ v

inductive IssueKind where
  | missingClose
  | extraClose
  deriving DecidableEq, Repr

structure Issue where
  kind : IssueKind
  index : Nat
  deriving DecidableEq, Repr

def scanAux : List Char → Nat → List Nat → List Nat → List Nat × List Nat
  | [], _, st, ex => (st, ex)
  | c :: t, i, st, ex =>
    if c = '(' then scanAux t (i + 1) (i :: st) ex
    else if c = ')' then
      match st with
      | [] => scanAux t (i + 1) [] (i :: ex)
      | _ :: st' => scanAux t (i + 1) st' ex
    else scanAux t (i + 1) st ex

def shaderMarkerCheck (s : List Char) : Bool :=
  hasSub ("ShaderMaterial".toList) s ||
  hasSub ("vertexShader".toList) s ||
  hasSub ("fragmentShader".toList) s ||
  hasSub ("gl_FragColor".toList) s ||
  hasSub ("uniform ".toList) s ||
  hasSub ("varying ".toList) s

def detectUnbalancedParentheses (s : List Char) : List Issue :=
  if shaderMarkerCheck s then []
  else
    let r := scanAux s 0 [] []
    r.2.reverse.map (fun i => ⟨IssueKind.extraClose, i⟩) ++
      r.1.reverse.map (fun i => ⟨IssueKind.missingClose, i⟩)

def markerComment : List Char :=
  ['/', '*', ' ', 'r', 'e', 'm', 'o', 'v', 'e', 'd', ' ',
   'e', 'x', 't', 'r', 'a', ' ', ')', ' ', '*', '/']

def fixLoop : List Char → Nat → List Issue → List Char
  | s, _, [] => s
  | s, off, fx :: rest =>
    match fx.kind with
    | IssueKind.missingClose =>
        fixLoop (s.take (fx.index + 1 + off) ++ ')' :: s.drop (fx.index + 1 + off))
          (off + 1) rest
    | IssueKind.extraClose =>
        fixLoop (s.take (fx.index + off) ++ markerComment ++ s.drop (fx.index + off + 1))
          (off + (markerComment.length - 1)) rest

def fixUnbalanced (s : List Char) : List Char × Nat :=
  let fixes := detectUnbalancedParentheses s
  (fixLoop s 0 fixes, fixes.length)

def replaceFirst (pat rep : List Char) : List Char → List Char
  | [] => if startsWith pat [] then rep else []
  | s@(c :: s') =>
    if startsWith pat s then rep ++ s.drop pat.length
    else c :: replaceFirst pat rep s'

def dropFirstCloseParen : List Char → List Char
  | [] => []
  | c :: t => if c = ')' then t else c :: dropFirstCloseParen t

def removeLastParen (s : List Char) : List Char :=
  (dropFirstCloseParen s.reverse).reverse

def isJsWs (c : Char) : Bool :=
  c = ' ' || c = '\t' || c = '\n' || c = '\r' || c = '\x0b' || c = '\x0c'

def jsTrim (s : List Char) : List Char :=
  ((s.dropWhile isJsWs).reverse.dropWhile isJsWs).reverse

def splitNl : List Char → List (List Char)
  | [] => [[]]
  | c :: t =>
    let r := splitNl t
    if c = '\n' then [] :: r
    else
      match r with
      | [] => [[c]]
      | h :: r' => (c :: h) :: r'

def joinNl : List (List Char) → List Char
  | [] => []
  | [l] => l
  | l :: ls => l ++ '\n' :: joinNl ls

def lineOfIndex (s : List Char) (i : Nat) : Nat :=
  if i ≤ s.length then (s.take i).count '\n' else 0

def simMatches (shorter longer : List Char) : Nat :=
  (shorter.filter (fun c => longer.contains c)).length

def calculateStringSimilarity (str1 str2 : List Char) : ℚ :=
  let longer := if str2.length < str1.length then str1 else str2
  let shorter := if str2.length < str1.length then str2 else str1
  if longer.length = 0 then 1
  else (simMatches shorter longer : ℚ) / (longer.length : ℚ)

structure AiFix where
  lineNumber : Int
  original : List Char
  fixed : List Char
  deriving DecidableEq, Repr

structure IssueDesc where
  kind : IssueKind
  lineNumber : Nat
  deriving DecidableEq, Repr

def mkIssueDescriptions (script : List Char) (issues : List Issue) : List IssueDesc :=
  issues.map fun iss => ⟨iss.kind, lineOfIndex script iss.index + 1⟩

inductive FixPath where
  | exactReplace
  | fuzzy
  | fallbackMissing
  | fallbackExtra
  | skipped
  deriving DecidableEq, Repr

def applyFixToLine (originalLine : List Char) (fx : AiFix) (descs : List IssueDesc) :
    List Char × Nat × FixPath :=
  if hasSub fx.original originalLine then
    (replaceFirst fx.original fx.fixed originalLine, 1, FixPath.exactReplace)
  else if 7/10 < calculateStringSimilarity originalLine fx.original then
    (fx.fixed, 1, FixPath.fuzzy)
  else
    match descs.filter (fun d => (d.lineNumber : Int) = fx.lineNumber) with
    | [] => (originalLine, 0, FixPath.skipped)
    | d :: _ =>
      match d.kind with
      | IssueKind.missingClose =>
        if (jsTrim originalLine).getLast? = some ';' then
          (replaceFirst [';'] [')', ';'] originalLine, 1, FixPath.fallbackMissing)
        else
          (originalLine ++ [')'], 1, FixPath.fallbackMissing)
      | IssueKind.extraClose =>
        (removeLastParen originalLine, 1, FixPath.fallbackExtra)

def applyAiFixes (script : List Char) (issues : List Issue) (fixes : List AiFix) :
    List Char × Nat :=
  let lines := splitNl script
  let descs := mkIssueDescriptions script issues
  let r := fixes.foldl
    (fun (acc : List (List Char) × Nat) fx =>
      let li := fx.lineNumber - 1
      if 0 ≤ li ∧ li < (acc.1.length : Int) then
        let res := applyFixToLine (acc.1.getD li.toNat []) fx descs
        (acc.1.set li.toNat res.1, acc.2 + res.2.1)
      else acc)
    (lines, 0)
  (joinNl r.1, r.2)

inductive AiOutcome where
  | networkFailure
  | unparseable
  | parsed (fixes : List AiFix)
  deriving DecidableEq, Repr

def getSmartFixFromAI (script : List Char) (issues : List Issue) (outcome : AiOutcome) :
    List Char × Nat :=
  if issues.isEmpty then (script, 0)
  else
    match outcome with
    | AiOutcome.networkFailure => fixUnbalanced script
    | AiOutcome.unparseable => (script, 0)
    | AiOutcome.parsed fixes =>
      if fixes.isEmpty then (script, 0) else applyAiFixes script issues fixes

def processScriptBlock (script : List Char) (outcome : AiOutcome) : List Char × Nat :=
  let issues := detectUnbalancedParentheses script
  if issues.isEmpty then (script, 0)
  else
    let r := getSmartFixFromAI script issues outcome
    if 0 < r.2 then r
    else
      let b := fixUnbalanced script
      if 0 < b.2 then b else (script, 0)

structure BlockFix where
  startLine : Int
  endLine : Int
  replacement : List Char
  deriving DecidableEq, Repr

def allLinesCommented (r : List Char) : Bool :=
  (splitNl r).all (fun l => startsWith ['/', '/'] (jsTrim l))

def validBlockFixes (fixes : List BlockFix) : List BlockFix :=
  fixes.filter (fun fx => allLinesCommented fx.replacement)

structure ContextBlock where
  blockStartLine : Nat
  blockEndLine : Nat
  blockContent : List Char
  deriving DecidableEq, Repr

def manualBlockFixes (fullName : List Char) (blocks : List ContextBlock) : List BlockFix :=
  blocks.map fun b =>
    { startLine := (b.blockStartLine : Int)
      endLine := (b.blockEndLine : Int)
      replacement :=
        ("// ERROR: Block commented out due to missing function ".toList ++ fullName)
          ++ '\n' :: joinNl ((splitNl b.blockContent).map (fun l => '/' :: '/' :: ' ' :: l)) }

inductive BlockAiOutcome where
  | networkFailure
  | unparseable
  | parsed (fixes : List BlockFix)
  deriving DecidableEq, Repr

def getTargetedFunctionFixes (fullName : List Char) (blocks : List ContextBlock)
    (outcome : BlockAiOutcome) : List BlockFix :=
  match outcome with
  | BlockAiOutcome.networkFailure => manualBlockFixes fullName blocks
  | BlockAiOutcome.unparseable => validBlockFixes (manualBlockFixes fullName blocks)
  | BlockAiOutcome.parsed fixes => validBlockFixes fixes

def containsShaderMaterialB (s : List Char) : Bool :=
  hasSub ("new three.shadermaterial(".toList) (s.map Char.toLower)

inductive WTarget where
  | backup
  | originalFile
  deriving DecidableEq, Repr

def processHtmlFile (orig : List Char)
    (pMalformedTags pMissingStyle pCdn pNotAFunction pCss pUndefinedVars pScripts pShader :
      List Char → List Char × Nat) :
    List (WTarget × List Char) × Nat :=
  let r1 := pMalformedTags orig
  let r2 := pMissingStyle r1.1
  let r3 := pCdn r2.1
  let r4 := pNotAFunction r3.1
  let r5 := pCss r4.1
  let r6 := pUndefinedVars r5.1
  let r7 := pScripts r6.1
  let t7 := r1.2 + r2.2 + r3.2 + r4.2 + r5.2 + r6.2 + r7.2
  if containsShaderMaterialB r7.1 then
    let r8 := pShader r7.1
    let total := t7 + r8.2
    let shaderWrites :=
      if 0 < r8.2 ∧ 0 < total then [(WTarget.originalFile, r8.1)] else []
    let finalWrites := if 0 < total then [(WTarget.originalFile, r8.1)] else []
    ((WTarget.backup, orig) :: (shaderWrites ++ finalWrites), total)
  else
    let finalWrites := if 0 < t7 then [(WTarget.originalFile, r7.1)] else []
    ((WTarget.backup, orig) :: finalWrites, t7)

def similaritySpecShorterFrac (a b : List Char) : ℚ :=
  let shorter := if a.length ≤ b.length then a else b
  let longer := if a.length ≤ b.length then b else a
  (simMatches shorter longer : ℚ) / (shorter.length : ℚ)

def similaritySpecLongerFrac (a b : List Char) : ℚ :=
  let shorter := if a.length ≤ b.length then a else b
  let longer := if a.length ≤ b.length then b else a
  if longer.length = 0 then 1
  else (simMatches shorter longer : ℚ) / (longer.length : ℚ)

def fuzzyLine70 : List Char := 'a' :: List.replicate 9 'b'

def fuzzyOrig70 : List Char := List.replicate 7 'a'

def fuzzyPatch70 : AiFix := ⟨1, fuzzyOrig70, "overwritten-line-70".toList⟩

def fuzzyLine71 : List Char := 'a' :: List.replicate 99 'b'

def fuzzyOrig71 : List Char := List.replicate 71 'a'

def fuzzyPatch71 : AiFix := ⟨1, fuzzyOrig71, "overwritten-line-71".toList⟩

def notAFunBadFix : BlockFix := ⟨1, 1, "// )".toList⟩

def notAFunSpanText : List Char := "x();".toList

/-- Index-free abstraction of the scan: track only the stack depth, with
`none` when a `)` meets an empty stack (i.e. an `extra-close` would be
recorded).  Used to transfer scan facts between starting positions. -/
def scanD : List Char → Nat → Option Nat
  | [], d => some d
  | c :: t, d =>
    if c = '(' then scanD t (d + 1)
    else if c = ')' then
      match d with
      | 0 => none
      | d' + 1 => scanD t d'
    else scanD t d

/-! ### Theorems -/

theorem startsWith_iff (t s : List Char) :
    startsWith t s = true ↔ ∃ v, s = t ++ v := by
  induction t generalizing s with
  | nil => simp [startsWith]
  | cons a t ih =>
    cases s with
    | nil => simp [startsWith]
    | cons b s =>
      simp only [startsWith, Bool.and_eq_true, decide_eq_true_eq, ih]
      constructor
      · rintro ⟨rfl, v, rfl⟩; exact ⟨v, rfl⟩
      · rintro ⟨v, hv⟩
        cases hv
        exact ⟨rfl, v, rfl⟩

theorem hasSub_iff (t s : List Char) :
    hasSub t s = true ↔ OccursIn t s := by
  induction s with
  | nil =>
    simp only [hasSub, startsWith_iff, OccursIn]
    constructor
    · rintro ⟨v, hv⟩
      exact ⟨[], v, hv⟩
    · rintro ⟨u, v, huv⟩
      rcases u with _ | ⟨c, u⟩
      · exact ⟨v, huv⟩
      · simp at huv
  | cons c s ih =>
    simp only [hasSub, Bool.or_eq_true, startsWith_iff, ih, OccursIn]
    constructor
    · rintro (⟨v, hv⟩ | ⟨u, v, huv⟩)
      · exact ⟨[], v, hv⟩
      · exact ⟨c :: u, v, by simp [huv]⟩
    · rintro ⟨u, v, huv⟩
      rcases u with _ | ⟨d, u⟩
      · exact Or.inl ⟨v, huv⟩
      · right
        simp only [List.cons_append, List.cons.injEq] at huv
        exact ⟨u, v, huv.2⟩

theorem occursIn_append_left {t A : List Char} (B : List Char)
    (h : OccursIn t A) : OccursIn t (A ++ B) := by
  obtain ⟨u, v, rfl⟩ := h
  exact ⟨u, v ++ B, by simp⟩

theorem occursIn_append_right (A : List Char) {t B : List Char}
    (h : OccursIn t B) : OccursIn t (A ++ B) := by
  obtain ⟨u, v, rfl⟩ := h
  exact ⟨A ++ u, v, by simp⟩

theorem split_of_append_eq :
    ∀ (A t B v : List Char), A ++ B = t ++ v →
      (∃ w, A = t ++ w) ∨ (∃ t2 w, t = A ++ t2 ∧ B = t2 ++ w) := by
  intro A
  induction A with
  | nil =>
    intro t B v h
    exact Or.inr ⟨t, v, rfl, h⟩
  | cons a A ih =>
    intro t B v h
    cases t with
    | nil => exact Or.inl ⟨a :: A, rfl⟩
    | cons b t =>
      simp only [List.cons_append, List.cons.injEq] at h
      obtain ⟨rfl, h⟩ := h
      rcases ih t B v h with ⟨w, hw⟩ | ⟨t2, w, ht, hB⟩
      · exact Or.inl ⟨w, by simp [hw]⟩
      · exact Or.inr ⟨t2, w, by simp [ht], hB⟩

theorem occursIn_append_cases {t X Y : List Char} (h : OccursIn t (X ++ Y)) :
    OccursIn t X ∨ OccursIn t Y ∨
      ∃ t1 t2, t = t1 ++ t2 ∧ t1 ≠ [] ∧ t2 ≠ [] ∧
        (∃ u, X = u ++ t1) ∧ (∃ v, Y = t2 ++ v) := by
  induction X generalizing t with
  | nil =>
    obtain ⟨u, v, huv⟩ := h
    exact Or.inr (Or.inl ⟨u, v, huv⟩)
  | cons a X ih =>
    obtain ⟨u, v, huv⟩ := h
    cases u with
    | cons b u =>
      simp only [List.cons_append, List.cons.injEq] at huv
      rcases ih ⟨u, v, huv.2⟩ with hX | hY | ⟨t1, t2, ht, h1, h2, ⟨u1, hu1⟩, hpre⟩
      · obtain ⟨u1, v1, h1⟩ := hX
        exact Or.inl ⟨a :: u1, v1, by simp [h1, huv.1]⟩
      · exact Or.inr (Or.inl hY)
      · exact Or.inr (Or.inr ⟨t1, t2, ht, h1, h2, ⟨a :: u1, by simp [hu1, huv.1]⟩, hpre⟩)
    | nil =>
      -- `t ++ v = (a :: X) ++ Y` : `t` is a prefix of `(a :: X) ++ Y`
      simp only [List.nil_append] at huv
      rcases split_of_append_eq (a :: X) t Y v huv with
        ⟨w, hw⟩ | ⟨t2, w, ht, hY⟩
      · exact Or.inl ⟨[], w, by simp [hw]⟩
      · rcases eq_or_ne t2 [] with rfl | h2
        · exact Or.inl ⟨[], [], by simp [ht]⟩
        · exact Or.inr (Or.inr ⟨a :: X, t2, ht, by simp, h2, ⟨[], rfl⟩, ⟨w, hY⟩⟩)

theorem scanAux_open (t : List Char) (i : Nat) (st ex : List Nat) :
    scanAux ('(' :: t) i st ex = scanAux t (i + 1) (i :: st) ex := by
  simp [scanAux]

theorem scanAux_close_nil (t : List Char) (i : Nat) (ex : List Nat) :
    scanAux (')' :: t) i [] ex = scanAux t (i + 1) [] (i :: ex) := by
  simp [scanAux]

theorem scanAux_close_cons (t : List Char) (i : Nat) (h : Nat) (st ex : List Nat) :
    scanAux (')' :: t) i (h :: st) ex = scanAux t (i + 1) st ex := by
  simp [scanAux]

theorem scanAux_other {c : Char} (hc : c ≠ '(') (hc2 : c ≠ ')')
    (t : List Char) (i : Nat) (st ex : List Nat) :
    scanAux (c :: t) i st ex = scanAux t (i + 1) st ex := by
  simp [scanAux, hc, hc2]

theorem scan_count :
    ∀ (s : List Char) (i : Nat) (st ex : List Nat),
      (scanAux s i st ex).1.length + s.count ')' + ex.length =
        st.length + s.count '(' + (scanAux s i st ex).2.length := by
  intro s
  induction s with
  | nil => intro i st ex; simp [scanAux]
  | cons c t ih =>
    intro i st ex
    by_cases hc : c = '('
    · subst hc
      rw [scanAux_open]
      have := ih (i + 1) (i :: st) ex
      have h1 : (('(' :: t).count ')') = t.count ')' := by
        simp [List.count_cons]
      have h2 : (('(' :: t).count '(') = t.count '(' + 1 := by
        simp [List.count_cons]
      rw [h1, h2]
      simp only [List.length_cons] at this
      omega
    · by_cases hc2 : c = ')'
      · subst hc2
        have h1 : ((')' :: t).count ')') = t.count ')' + 1 := by
          simp [List.count_cons]
        have h2 : ((')' :: t).count '(') = t.count '(' := by
          simp [List.count_cons]
        rw [h1, h2]
        cases st with
        | nil =>
          rw [scanAux_close_nil]
          have := ih (i + 1) [] (i :: ex)
          simp only [List.length_cons, List.length_nil] at this ⊢
          omega
        | cons h st' =>
          rw [scanAux_close_cons]
          have := ih (i + 1) st' ex
          simp only [List.length_cons] at this ⊢
          omega
      · rw [scanAux_other hc hc2]
        have := ih (i + 1) st ex
        have h1 : ((c :: t).count ')') = t.count ')' := by
          simp [List.count_cons, beq_iff_eq, Ne.symm hc2]
        have h2 : ((c :: t).count '(') = t.count '(' := by
          simp [List.count_cons, beq_iff_eq, Ne.symm hc]
        rw [h1, h2]
        omega

theorem fixLoop_missing_counts :
    ∀ (fixes : List Issue) (s : List Char) (off : Nat),
      (∀ fx ∈ fixes, fx.kind = IssueKind.missingClose) →
      (fixLoop s off fixes).count ')' = s.count ')' + fixes.length ∧
      (fixLoop s off fixes).count '(' = s.count '(' := by
  intro fixes
  induction fixes with
  | nil => intro s off _; simp [fixLoop]
  | cons fx rest ih =>
    intro s off hall
    have hk : fx.kind = IssueKind.missingClose := hall fx (by simp)
    have hrest : ∀ g ∈ rest, g.kind = IssueKind.missingClose :=
      fun g hg => hall g (by simp [hg])
    have hstep : fixLoop s off (fx :: rest) =
        fixLoop (s.take (fx.index + 1 + off) ++ ')' :: s.drop (fx.index + 1 + off))
          (off + 1) rest := by
      rw [fixLoop, hk]
    have htd := congrArg (List.count ')') (List.take_append_drop (fx.index + 1 + off) s)
    have htd2 := congrArg (List.count '(') (List.take_append_drop (fx.index + 1 + off) s)
    simp only [List.count_append] at htd htd2
    have hsplit1 : (s.take (fx.index + 1 + off) ++ ')' :: s.drop (fx.index + 1 + off)).count ')' =
        s.count ')' + 1 := by
      simp only [List.count_append, List.count_cons]
      simp
      omega
    have hsplit2 : (s.take (fx.index + 1 + off) ++ ')' :: s.drop (fx.index + 1 + off)).count '(' =
        s.count '(' := by
      simp only [List.count_append, List.count_cons]
      simp
      omega
    have hind := ih (s.take (fx.index + 1 + off) ++ ')' :: s.drop (fx.index + 1 + off))
      (off + 1) hrest
    rw [hstep]
    simp only [List.length_cons]
    omega

theorem deterministic_patch_balances (s : List Char)
    (hsh : shaderMarkerCheck s = false)
    (hex : (scanAux s 0 [] []).2 = []) :
    (fixUnbalanced s).1.count ')' = s.count ')' + (s.count '(' - s.count ')') ∧
    (fixUnbalanced s).1.count '(' = s.count '(' ∧
    (fixUnbalanced s).1.count ')' = (fixUnbalanced s).1.count '(' := by
  have hdet : detectUnbalancedParentheses s =
      (scanAux s 0 [] []).1.reverse.map (fun i => ⟨IssueKind.missingClose, i⟩) := by
    simp [detectUnbalancedParentheses, hsh, hex]
  have hall : ∀ fx ∈ detectUnbalancedParentheses s,
      fx.kind = IssueKind.missingClose := by
    rw [hdet]
    intro fx hfx
    simp only [List.mem_map] at hfx
    obtain ⟨a, _, rfl⟩ := hfx
    rfl
  have hcnt := scan_count s 0 [] []
  rw [hex] at hcnt
  simp only [List.length_nil] at hcnt
  have hlen : (detectUnbalancedParentheses s).length = (scanAux s 0 [] []).1.length := by
    rw [hdet]; simp
  have hmain := fixLoop_missing_counts (detectUnbalancedParentheses s) s 0 hall
  have h1 : (fixUnbalanced s).1 = fixLoop s 0 (detectUnbalancedParentheses s) := rfl
  rw [h1]
  omega

theorem c1_counterexample :
    ((fixUnbalanced (")((".toList)).1.count ')' ≠
      (")((".toList).count ')' + ((")((".toList).count '(' - (")((".toList).count ')')) ∧
    ((fixUnbalanced (")((".toList)).1.count '(' ≠ (fixUnbalanced (")((".toList)).1.count ')') ∧
    ((fixUnbalanced ("uniform ((".toList)).1.count ')' ≠
      ("uniform ((".toList).count ')' +
        (("uniform ((".toList).count '(' - ("uniform ((".toList).count ')')) := by
  decide

theorem deterministic_patch_balances_witness :
    shaderMarkerCheck ("((".toList) = false ∧
    (scanAux ("((".toList) 0 [] []).2 = [] ∧
    ((fixUnbalanced ("((".toList)).1.count ')' =
        ("((".toList).count ')' + (("((".toList).count '(' - ("((".toList).count ')') ∧
      (fixUnbalanced ("((".toList)).1.count '(' = ("((".toList).count '(' ∧
      (fixUnbalanced ("((".toList)).1.count ')' = (fixUnbalanced ("((".toList)).1.count '(') :=
  ⟨by decide, by decide, deterministic_patch_balances _ (by decide) (by decide)⟩

theorem c2_counterexample :
    (fixUnbalanced ("createFish(p.random(3);".toList)).1 ≠
      "createFish(p.random(3));".toList := by
  decide

theorem c2_amended :
    fixUnbalanced ("createFish(p.random(3);".toList) =
      ("createFish()p.random(3);".toList, 1) := by
  decide

theorem c3_counterexample :
    calculateStringSimilarity ("ab".toList) ("abcd".toList) ≠
      similaritySpecShorterFrac ("ab".toList) ("abcd".toList) := by
  have h1 : calculateStringSimilarity ("ab".toList) ("abcd".toList) = 1/2 := by
    norm_num [calculateStringSimilarity, simMatches]
  have h2 : similaritySpecShorterFrac ("ab".toList) ("abcd".toList) = 1 := by
    norm_num [similaritySpecShorterFrac, simMatches]
  rw [h1, h2]
  norm_num

theorem similarity_divides_by_longer (a b : List Char) :
    calculateStringSimilarity a b = similaritySpecLongerFrac a b := by
  unfold calculateStringSimilarity similaritySpecLongerFrac
  rcases lt_or_ge b.length a.length with h | h
  · simp [if_pos h, if_neg (not_le.mpr h)]
  · simp [if_neg (not_lt.mpr h), if_pos h]

theorem shader_scripts_yield_no_issues (s : List Char)
    (h : shaderMarkerCheck s = true) :
    detectUnbalancedParentheses s = [] := by
  simp [detectUnbalancedParentheses, h]

theorem shader_scripts_yield_no_issues_witness :
    shaderMarkerCheck ("fragmentShader((".toList) = true ∧
    detectUnbalancedParentheses ("fragmentShader((".toList) = [] :=
  ⟨by decide, shader_scripts_yield_no_issues _ (by decide)⟩

theorem sim_70_value :
    calculateStringSimilarity fuzzyLine70 fuzzyPatch70.original = 7/10 := by
  show calculateStringSimilarity fuzzyLine70 fuzzyOrig70 = 7/10
  unfold calculateStringSimilarity
  rw [if_pos (by decide : fuzzyOrig70.length < fuzzyLine70.length)]
  rw [if_neg (by decide : ¬ fuzzyLine70.length = 0)]
  rw [if_pos (by decide : fuzzyOrig70.length < fuzzyLine70.length)]
  rw [(by decide : simMatches fuzzyOrig70 fuzzyLine70 = 7),
    (by decide : fuzzyLine70.length = 10)]
  norm_num

theorem sim_71_value :
    calculateStringSimilarity fuzzyLine71 fuzzyPatch71.original = 71/100 := by
  show calculateStringSimilarity fuzzyLine71 fuzzyOrig71 = 71/100
  unfold calculateStringSimilarity
  rw [if_pos (by decide : fuzzyOrig71.length < fuzzyLine71.length)]
  rw [if_neg (by decide : ¬ fuzzyLine71.length = 0)]
  rw [if_pos (by decide : fuzzyOrig71.length < fuzzyLine71.length)]
  rw [(by decide : simMatches fuzzyOrig71 fuzzyLine71 = 71),
    (by decide : fuzzyLine71.length = 100)]
  norm_num

theorem fuzzy_threshold_strict :
    (∀ (line : List Char) (fx : AiFix) (descs : List IssueDesc),
        hasSub fx.original line = false →
        ((applyFixToLine line fx descs).2.2 = FixPath.fuzzy ↔
          7/10 < calculateStringSimilarity line fx.original)) ∧
    calculateStringSimilarity fuzzyLine70 fuzzyPatch70.original = 7/10 ∧
    hasSub fuzzyPatch70.original fuzzyLine70 = false ∧
    (applyFixToLine fuzzyLine70 fuzzyPatch70 []).2.2 ≠ FixPath.fuzzy ∧
    (applyFixToLine fuzzyLine70 fuzzyPatch70 []).1 = fuzzyLine70 ∧
    calculateStringSimilarity fuzzyLine71 fuzzyPatch71.original = 71/100 ∧
    hasSub fuzzyPatch71.original fuzzyLine71 = false ∧
    (applyFixToLine fuzzyLine71 fuzzyPatch71 []).2.2 = FixPath.fuzzy ∧
    (applyFixToLine fuzzyLine71 fuzzyPatch71 []).1 = fuzzyPatch71.fixed := by
  have hgen : ∀ (line : List Char) (fx : AiFix) (descs : List IssueDesc),
      hasSub fx.original line = false →
      ((applyFixToLine line fx descs).2.2 = FixPath.fuzzy ↔
        7/10 < calculateStringSimilarity line fx.original) := by
    intro line fx descs h
    unfold applyFixToLine
    rw [if_neg (by simp [h])]
    by_cases hsim : 7/10 < calculateStringSimilarity line fx.original
    · rw [if_pos hsim]
      simp [hsim]
    · rw [if_neg hsim]
      rcases hfil : descs.filter (fun d => decide ((d.lineNumber : Int) = fx.lineNumber))
        with _ | ⟨d, rest⟩
      · rw [hfil]
        simp [hsim]
      · rw [hfil]
        rcases hk : d.kind with _ | _
        · by_cases hend : (jsTrim line).getLast? = some ';' <;>
            simp [hk, hend, hsim]
        · simp [hk, hsim]
  refine ⟨hgen, sim_70_value, by decide, ?_, ?_, sim_71_value, by decide, ?_, ?_⟩
  · intro hcon
    have hlt := (hgen fuzzyLine70 fuzzyPatch70 [] (by decide)).mp hcon
    rw [sim_70_value] at hlt
    exact lt_irrefl _ hlt
  · show (applyFixToLine fuzzyLine70 fuzzyPatch70 []).1 = fuzzyLine70
    unfold applyFixToLine
    rw [if_neg (by simp [(by decide : hasSub fuzzyPatch70.original fuzzyLine70 = false)])]
    rw [if_neg (by rw [sim_70_value]; exact lt_irrefl _)]
    simp
  · rw [hgen fuzzyLine71 fuzzyPatch71 [] (by decide), sim_71_value]
    norm_num
  · unfold applyFixToLine
    rw [if_neg (by simp [(by decide : hasSub fuzzyPatch71.original fuzzyLine71 = false)])]
    rw [if_pos (by rw [sim_71_value]; norm_num)]

theorem fuzzy_threshold_strict_witness :
    hasSub fuzzyPatch71.original fuzzyLine71 = false ∧
    (applyFixToLine fuzzyLine71 fuzzyPatch71 []).2.2 = FixPath.fuzzy :=
  ⟨by decide,
    (fuzzy_threshold_strict.1 fuzzyLine71 fuzzyPatch71 [] (by decide)).mpr
      (by rw [sim_71_value]; norm_num)⟩

theorem c5_counterexample :
    getSmartFixFromAI ("((".toList) (detectUnbalancedParentheses ("((".toList))
      AiOutcome.networkFailure ≠ ("((".toList, 0) := by
  decide

theorem oracle_failure_falls_back_to_deterministic (script : List Char)
    (outcome : AiOutcome)
    (hfail : outcome = AiOutcome.networkFailure ∨ outcome = AiOutcome.unparseable ∨
      outcome = AiOutcome.parsed [])
    (hiss : detectUnbalancedParentheses script ≠ []) :
    processScriptBlock script outcome = fixUnbalanced script ∧
    (processScriptBlock script outcome).2 = (detectUnbalancedParentheses script).length ∧
    (outcome ≠ AiOutcome.networkFailure →
      getSmartFixFromAI script (detectUnbalancedParentheses script) outcome =
        (script, 0)) := by
  have hne : (detectUnbalancedParentheses script).isEmpty = false := by
    rcases hd : detectUnbalancedParentheses script with _ | ⟨a, l⟩
    · exact absurd hd hiss
    · simp [List.isEmpty]
  have hpos : 0 < (detectUnbalancedParentheses script).length :=
    List.length_pos.mpr hiss
  have hsnd : (fixUnbalanced script).2 = (detectUnbalancedParentheses script).length := rfl
  rcases hfail with rfl | rfl | rfl
  · have hsm : getSmartFixFromAI script (detectUnbalancedParentheses script)
        AiOutcome.networkFailure = fixUnbalanced script := by
      unfold getSmartFixFromAI
      rw [if_neg (by simp [hne])]
    have hp : processScriptBlock script AiOutcome.networkFailure = fixUnbalanced script := by
      unfold processScriptBlock
      rw [if_neg (by simp [hne]), hsm, if_pos (by rw [hsnd]; exact hpos)]
    exact ⟨hp, by rw [hp, hsnd], fun h => absurd rfl h⟩
  · have hsm : getSmartFixFromAI script (detectUnbalancedParentheses script)
        AiOutcome.unparseable = (script, 0) := by
      unfold getSmartFixFromAI
      rw [if_neg (by simp [hne])]
    have hp : processScriptBlock script AiOutcome.unparseable = fixUnbalanced script := by
      unfold processScriptBlock
      rw [if_neg (by simp [hne]), hsm, if_neg (by simp),
        if_pos (by rw [hsnd]; exact hpos)]
    exact ⟨hp, by rw [hp, hsnd], fun _ => hsm⟩
  · have hsm : getSmartFixFromAI script (detectUnbalancedParentheses script)
        (AiOutcome.parsed []) = (script, 0) := by
      unfold getSmartFixFromAI
      rw [if_neg (by simp [hne])]
      simp [List.isEmpty]
    have hp : processScriptBlock script (AiOutcome.parsed []) = fixUnbalanced script := by
      unfold processScriptBlock
      rw [if_neg (by simp [hne]), hsm, if_neg (by simp),
        if_pos (by rw [hsnd]; exact hpos)]
    exact ⟨hp, by rw [hp, hsnd], fun _ => hsm⟩

theorem oracle_failure_falls_back_to_deterministic_witness :
    (AiOutcome.unparseable = AiOutcome.networkFailure ∨
      AiOutcome.unparseable = AiOutcome.unparseable ∨
      AiOutcome.unparseable = AiOutcome.parsed []) ∧
    detectUnbalancedParentheses ("((".toList) ≠ [] ∧
    (processScriptBlock ("((".toList) AiOutcome.unparseable =
        fixUnbalanced ("((".toList) ∧
      (processScriptBlock ("((".toList) AiOutcome.unparseable).2 =
        (detectUnbalancedParentheses ("((".toList)).length ∧
      (AiOutcome.unparseable ≠ AiOutcome.networkFailure →
        getSmartFixFromAI ("((".toList) (detectUnbalancedParentheses ("((".toList))
          AiOutcome.unparseable = ("((".toList, 0))) :=
  ⟨Or.inr (Or.inl rfl), by decide,
    oracle_failure_falls_back_to_deterministic _ _ (Or.inr (Or.inl rfl)) (by decide)⟩

theorem c7_counterexample :
    getTargetedFunctionFixes ("obj.method".toList) [⟨1, 1, notAFunSpanText⟩]
        (BlockAiOutcome.parsed [notAFunBadFix]) = [notAFunBadFix] ∧
    ((notAFunBadFix.replacement.count '(' : Int) - (notAFunBadFix.replacement.count ')' : Int)) ≠
      ((notAFunSpanText.count '(' : Int) - (notAFunSpanText.count ')' : Int)) := by
  decide

theorem splitNl_ne_nil (s : List Char) : splitNl s ≠ [] := by
  cases s with
  | nil => simp [splitNl]
  | cons c t =>
    by_cases hc : c = '\n'
    · simp [splitNl, hc]
    · rcases hr : splitNl t with _ | ⟨h, r'⟩ <;> simp [splitNl, hc, hr]

theorem no_nl_of_mem_splitNl :
    ∀ (s l : List Char), l ∈ splitNl s → '\n' ∉ l := by
  intro s
  induction s with
  | nil =>
    intro l hl
    simp [splitNl] at hl
    simp [hl]
  | cons c t ih =>
    intro l hl
    by_cases hc : c = '\n'
    · subst hc
      simp only [splitNl, if_pos rfl] at hl
      rcases List.mem_cons.mp hl with rfl | hl2
      · simp
      · exact ih l hl2
    · rcases hr : splitNl t with _ | ⟨h, r'⟩
      · exact absurd hr (splitNl_ne_nil t)
      · simp only [splitNl, if_neg hc, hr] at hl
        rcases List.mem_cons.mp hl with rfl | hl2
        · intro hmem
          rcases List.mem_cons.mp hmem with rfl | hmem2
          · exact hc rfl
          · exact ih h (hr ▸ List.mem_cons_self h r') hmem2
        · exact ih l (hr ▸ List.mem_cons_of_mem h hl2)

theorem splitNl_no_nl (l : List Char) (h : '\n' ∉ l) : splitNl l = [l] := by
  induction l with
  | nil => simp [splitNl]
  | cons c t ih =>
    have hc : c ≠ '\n' := fun hh => h (by simp [hh])
    have ht : '\n' ∉ t := fun hh => h (by simp [hh])
    simp [splitNl, hc, ih ht]

theorem splitNl_append_nl (l rest : List Char) (h : '\n' ∉ l) :
    splitNl (l ++ '\n' :: rest) = l :: splitNl rest := by
  induction l with
  | nil => simp [splitNl]
  | cons c t ih =>
    have hc : c ≠ '\n' := fun hh => h (by simp [hh])
    have ht : '\n' ∉ t := fun hh => h (by simp [hh])
    simp [splitNl, hc, ih ht]

theorem splitNl_joinNl :
    ∀ (L : List (List Char)), L ≠ [] → (∀ l ∈ L, '\n' ∉ l) →
      splitNl (joinNl L) = L := by
  intro L
  induction L with
  | nil => intro h; exact absurd rfl h
  | cons l L ih =>
    intro _ hnl
    cases L with
    | nil =>
      simp only [joinNl]
      exact splitNl_no_nl l (hnl l (by simp))
    | cons l2 L' =>
      have h1 : joinNl (l :: l2 :: L') = l ++ '\n' :: joinNl (l2 :: L') := rfl
      rw [h1, splitNl_append_nl l _ (hnl l (by simp)),
        ih (by simp) (fun g hg => hnl g (by simp [hg]))]

theorem dropWhile_ws_append (u w : List Char) :
    List.dropWhile isJsWs (u ++ '/' :: w) = List.dropWhile isJsWs u ++ '/' :: w := by
  induction u with
  | nil => simp [List.dropWhile, isJsWs]
  | cons a u ih =>
    by_cases ha : isJsWs a <;> simp [List.dropWhile, ha, ih]

theorem jsTrim_double_slash (x : List Char) :
    startsWith ['/', '/'] (jsTrim ('/' :: '/' :: x)) = true := by
  unfold jsTrim
  have h1 : List.dropWhile isJsWs ('/' :: '/' :: x) = '/' :: '/' :: x := by
    simp [List.dropWhile, isJsWs]
  rw [h1]
  have h2 : ('/' :: '/' :: x).reverse = x.reverse ++ '/' :: ['/'] := by simp
  rw [h2, dropWhile_ws_append]
  have h3 : (List.dropWhile isJsWs x.reverse ++ '/' :: ['/']).reverse =
      '/' :: '/' :: (List.dropWhile isJsWs x.reverse).reverse := by simp
  rw [h3]
  simp [startsWith]

theorem c7_amended (fullName : List Char) (blocks : List ContextBlock)
    (outcome : BlockAiOutcome) (hnl : '\n' ∉ fullName) :
    ∀ fx ∈ getTargetedFunctionFixes fullName blocks outcome,
      allLinesCommented fx.replacement = true := by
  have hmanual : ∀ fx ∈ manualBlockFixes fullName blocks,
      allLinesCommented fx.replacement = true := by
    intro fx hfx
    simp only [manualBlockFixes, List.mem_map] at hfx
    obtain ⟨b, _, rfl⟩ := hfx
    have hheadnl :
        '\n' ∉ "// ERROR: Block commented out due to missing function ".toList ++ fullName := by
      intro hmem
      rcases List.mem_append.mp hmem with hmem1 | hmem2
      · exact absurd hmem1 (by decide)
      · exact hnl hmem2
    have hLnl : ∀ l ∈ (splitNl b.blockContent).map (fun l => '/' :: '/' :: ' ' :: l),
        '\n' ∉ l := by
      intro l hl
      simp only [List.mem_map] at hl
      obtain ⟨l0, hl0, rfl⟩ := hl
      intro hmem
      rcases List.mem_cons.mp hmem with h | h
      · exact absurd h (by decide)
      rcases List.mem_cons.mp h with h2 | h2
      · exact absurd h2 (by decide)
      rcases List.mem_cons.mp h2 with h3 | h3
      · exact absurd h3 (by decide)
      · exact no_nl_of_mem_splitNl b.blockContent l0 hl0 h3
    have hLne : (splitNl b.blockContent).map (fun l => '/' :: '/' :: ' ' :: l) ≠ [] := by
      intro hcon
      exact splitNl_ne_nil b.blockContent (List.map_eq_nil_iff.mp hcon)
    unfold allLinesCommented
    rw [splitNl_append_nl _ _ hheadnl, splitNl_joinNl _ hLne hLnl]
    rw [List.all_eq_true]
    intro l hl
    rcases List.mem_cons.mp hl with rfl | hl2
    · have hh : "// ERROR: Block commented out due to missing function ".toList ++ fullName =
          '/' :: '/' :: (" ERROR: Block commented out due to missing function ".toList ++ fullName) := by
        rfl
      rw [hh]
      exact jsTrim_double_slash _
    · simp only [List.mem_map] at hl2
      obtain ⟨l0, _, rfl⟩ := hl2
      exact jsTrim_double_slash (' ' :: l0)
  cases outcome with
  | networkFailure => exact hmanual
  | unparseable =>
    intro fx hfx
    exact (List.mem_filter.mp hfx).2
  | parsed fixes =>
    intro fx hfx
    exact (List.mem_filter.mp hfx).2

theorem c7_amended_witness :
    ('\n' ∉ "obj.method".toList) ∧
    (∀ fx ∈ getTargetedFunctionFixes ("obj.method".toList)
        [⟨1, 2, "foo();".toList⟩] BlockAiOutcome.networkFailure,
      allLinesCommented fx.replacement = true) :=
  ⟨by decide, c7_amended _ _ _ (by decide)⟩

theorem backup_first_overwrite_iff_fixes (orig : List Char)
    (p1 p2 p3 p4 p5 p6 p7 p8 : List Char → List Char × Nat) :
    (processHtmlFile orig p1 p2 p3 p4 p5 p6 p7 p8).1.head? =
      some (WTarget.backup, orig) ∧
    ((∃ e ∈ (processHtmlFile orig p1 p2 p3 p4 p5 p6 p7 p8).1,
        e.1 = WTarget.originalFile) ↔
      0 < (processHtmlFile orig p1 p2 p3 p4 p5 p6 p7 p8).2) := by
  constructor
  · simp only [processHtmlFile]
    split_ifs <;> rfl
  · simp only [processHtmlFile]
    split_ifs with h1 h2 h3 h4 h5
    all_goals simp
    all_goals omega

theorem scanD_open (t : List Char) (d : Nat) :
    scanD ('(' :: t) d = scanD t (d + 1) := by
  simp [scanD]

theorem scanD_close_succ (t : List Char) (d : Nat) :
    scanD (')' :: t) (d + 1) = scanD t d := by
  simp [scanD]

theorem scanD_other {c : Char} (hc : c ≠ '(') (hc2 : c ≠ ')') (t : List Char) (d : Nat) :
    scanD (c :: t) d = scanD t d := by
  simp [scanD, hc, hc2]

/-- The extras accumulator of the scan only grows. -/
theorem scan_ex_mono :
    ∀ (s : List Char) (i : Nat) (st ex : List Nat),
      ∃ pre, (scanAux s i st ex).2 = pre ++ ex := by
  intro s
  induction s with
  | nil => intro i st ex; exact ⟨[], rfl⟩
  | cons c t ih =>
    intro i st ex
    by_cases hc : c = '('
    · subst hc; rw [scanAux_open]; exact ih (i + 1) (i :: st) ex
    · by_cases hc2 : c = ')'
      · subst hc2
        cases st with
        | nil =>
          rw [scanAux_close_nil]
          obtain ⟨pre, hp⟩ := ih (i + 1) [] (i :: ex)
          exact ⟨pre ++ [i], by rw [hp]; simp⟩
        | cons h st' => rw [scanAux_close_cons]; exact ih (i + 1) st' ex
      · rw [scanAux_other hc hc2]; exact ih (i + 1) st ex

/-- A span whose depth scan goes from `d` to 0 without an `extra-close`
empties any stack of size `d` and records no extras, at any position. -/
theorem scanAux_of_scanD :
    ∀ (s : List Char) (d : Nat), scanD s d = some 0 →
      ∀ (i : Nat) (st ex : List Nat), st.length = d → scanAux s i st ex = ([], ex) := by
  intro s
  induction s with
  | nil =>
    intro d hd i st ex hst
    have hd0 : d = 0 := by
      have : some d = some 0 := hd
      exact Option.some.inj this
    have : st = [] := List.length_eq_zero.mp (hst.trans hd0)
    simp [scanAux, this]
  | cons c t ih =>
    intro d hd i st ex hst
    by_cases hc : c = '('
    · subst hc
      rw [scanD_open] at hd
      rw [scanAux_open]
      exact ih (d + 1) hd (i + 1) (i :: st) ex (by simp [hst])
    · by_cases hc2 : c = ')'
      · subst hc2
        cases d with
        | zero => simp [scanD] at hd
        | succ d' =>
          rw [scanD_close_succ] at hd
          cases st with
          | nil => simp at hst
          | cons h st' =>
            rw [scanAux_close_cons]
            exact ih d' hd (i + 1) st' ex (by simpa using hst)
      · rw [scanD_other hc hc2] at hd
        rw [scanAux_other hc hc2]
        exact ih d hd (i + 1) st ex hst

/-- Conversely, a scan that empties its stack and records no extras has a
clean depth scan. -/
theorem scanD_of_scanAux :
    ∀ (s : List Char) (i : Nat) (st ex : List Nat),
      scanAux s i st ex = ([], ex) → scanD s st.length = some 0 := by
  intro s
  induction s with
  | nil =>
    intro i st ex h
    have h1 := congrArg Prod.fst h
    simp [scanAux] at h1
    simp [scanD, h1]
  | cons c t ih =>
    intro i st ex h
    by_cases hc : c = '('
    · subst hc
      rw [scanAux_open] at h
      have := ih (i + 1) (i :: st) ex h
      simpa [scanD_open] using this
    · by_cases hc2 : c = ')'
      · subst hc2
        cases st with
        | nil =>
          rw [scanAux_close_nil] at h
          obtain ⟨pre, hp⟩ := scan_ex_mono t (i + 1) [] (i :: ex)
          rw [h] at hp
          have hlen := congrArg List.length hp
          simp at hlen
          omega
        | cons h0 st' =>
          rw [scanAux_close_cons] at h
          have := ih (i + 1) st' ex h
          simpa [scanD_close_succ] using this
      · rw [scanAux_other hc hc2] at h
        have := ih (i + 1) st ex h
        rwa [scanD_other hc hc2]

/-- The scan of a concatenation is the scan of the second part from the
state and position the first part leaves. -/
theorem scan_append :
    ∀ (X Y : List Char) (i : Nat) (st ex : List Nat),
      scanAux (X ++ Y) i st ex =
        scanAux Y (i + X.length) (scanAux X i st ex).1 (scanAux X i st ex).2 := by
  intro X
  induction X with
  | nil => intro Y i st ex; simp [scanAux]
  | cons c t ih =>
    intro Y i st ex
    have harith : i + 1 + t.length = i + (c :: t).length := by simp; omega
    by_cases hc : c = '('
    · subst hc
      rw [List.cons_append, scanAux_open, scanAux_open, ih, harith]
    · by_cases hc2 : c = ')'
      · subst hc2
        cases st with
        | nil =>
          rw [List.cons_append, scanAux_close_nil, scanAux_close_nil, ih, harith]
        | cons h st' =>
          rw [List.cons_append, scanAux_close_cons, scanAux_close_cons, ih, harith]
      · rw [List.cons_append, scanAux_other hc hc2, scanAux_other hc hc2, ih, harith]

/-- Shifting the base position of the scan shifts every recorded index. -/
theorem scan_shift :
    ∀ (s : List Char) (j k : Nat) (st ex : List Nat),
      scanAux s (j + k) (st.map (· + k)) (ex.map (· + k)) =
        ((scanAux s j st ex).1.map (· + k), (scanAux s j st ex).2.map (· + k)) := by
  intro s
  induction s with
  | nil => intro j k st ex; simp [scanAux]
  | cons c t ih =>
    intro j k st ex
    have harith : j + k + 1 = (j + 1) + k := by omega
    by_cases hc : c = '('
    · subst hc
      rw [scanAux_open, scanAux_open]
      have hmap : (j + k) :: st.map (· + k) = ((j :: st).map (· + k)) := by simp
      rw [hmap, harith, ih]
    · by_cases hc2 : c = ')'
      · subst hc2
        cases st with
        | nil =>
          rw [List.map_nil, scanAux_close_nil, scanAux_close_nil]
          have hmap : (j + k) :: ex.map (· + k) = ((j :: ex).map (· + k)) := by simp
          rw [hmap, harith]
          exact ih (j + 1) k [] (j :: ex)
        | cons h st' =>
          rw [List.map_cons, scanAux_close_cons, scanAux_close_cons, harith, ih]
      · rw [scanAux_other hc hc2, scanAux_other hc hc2, harith, ih]

/-- Scanning the marker comment from an empty stack records exactly one
`extra-close`, at offset 17 (the position of its `)`). -/
theorem scan_marker (k : Nat) : scanAux markerComment k [] [] = ([], [k + 17]) := by
  have h0 : scanAux markerComment 0 [] [] = ([], [17]) := by decide
  have hsh := scan_shift markerComment 0 k [] []
  rw [h0] at hsh
  simp only [List.map_nil, List.map_cons, Nat.zero_add] at hsh
  rw [hsh]
  simp [Nat.add_comm]

/-- Inversion of a scan producing exactly one `extra-close`: the span splits
at the stray `)` into a part that cleanly empties the initial stack and a
part that scans cleanly from the empty stack. -/
theorem scan_single_extra :
    ∀ (s : List Char) (j : Nat) (st ex0 : List Nat) (i : Nat),
      scanAux s j st ex0 = ([], i :: ex0) →
      ∃ A B, s = A ++ ')' :: B ∧ i = j + A.length ∧
        scanAux A j st ex0 = ([], ex0) ∧
        scanAux B (i + 1) [] (i :: ex0) = ([], i :: ex0) := by
  intro s
  induction s with
  | nil =>
    intro j st ex0 i h
    have h2 := congrArg Prod.snd h
    simp [scanAux] at h2
  | cons c t ih =>
    intro j st ex0 i h
    by_cases hc : c = '('
    · subst hc
      rw [scanAux_open] at h
      obtain ⟨A', B, hs, hi, hA, hB⟩ := ih (j + 1) (j :: st) ex0 i h
      refine ⟨'(' :: A', B, by simp [hs], by simp; omega, ?_, hB⟩
      rw [scanAux_open]
      exact hA
    · by_cases hc2 : c = ')'
      · subst hc2
        cases st with
        | nil =>
          rw [scanAux_close_nil] at h
          obtain ⟨pre, hp⟩ := scan_ex_mono t (j + 1) [] (j :: ex0)
          rw [h] at hp
          have hlen := congrArg List.length hp
          simp only [List.length_cons, List.length_append] at hlen
          have hpre : pre = [] := List.length_eq_zero.mp (by omega)
          subst hpre
          simp only [List.nil_append, List.cons.injEq] at hp
          have hij : i = j := hp.1
          subst hij
          exact ⟨[], t, rfl, by simp, rfl, h⟩
        | cons h0 st' =>
          rw [scanAux_close_cons] at h
          obtain ⟨A', B, hs, hi, hA, hB⟩ := ih (j + 1) st' ex0 i h
          refine ⟨')' :: A', B, by simp [hs], by simp; omega, ?_, hB⟩
          rw [scanAux_close_cons]
          exact hA
      · rw [scanAux_other hc hc2] at h
        obtain ⟨A', B, hs, hi, hA, hB⟩ := ih (j + 1) st ex0 i h
        refine ⟨c :: A', B, by simp [hs], by simp; omega, ?_, hB⟩
        rw [scanAux_other hc hc2]
        exact hA

/-- From `detectUnbalancedParentheses s = [extra-close at i]`: the script
splits at the stray `)` into two cleanly-scanning parts. -/
theorem detect_single_extra_decomp (s : List Char) (i : Nat)
    (hsh : shaderMarkerCheck s = false)
    (hdet : detectUnbalancedParentheses s = [⟨IssueKind.extraClose, i⟩]) :
    ∃ A B, s = A ++ ')' :: B ∧ i = A.length ∧
      scanAux A 0 [] [] = ([], []) ∧
      (∀ (j : Nat) (ex : List Nat), scanAux B j [] ex = ([], ex)) := by
  have hdet2 : (scanAux s 0 [] []).2.reverse.map (fun a => (⟨IssueKind.extraClose, a⟩ : Issue)) ++
      (scanAux s 0 [] []).1.reverse.map (fun a => (⟨IssueKind.missingClose, a⟩ : Issue)) =
      [⟨IssueKind.extraClose, i⟩] := by
    rw [← hdet]
    simp [detectUnbalancedParentheses, hsh]
  have hscan : scanAux s 0 [] [] = ([], [i]) := by
    rcases hex : (scanAux s 0 [] []).2 with _ | ⟨a, ex'⟩
    · rw [hex] at hdet2
      simp only [List.reverse_nil, List.map_nil, List.nil_append] at hdet2
      have hmem : (⟨IssueKind.extraClose, i⟩ : Issue) ∈
          (scanAux s 0 [] []).1.reverse.map
            (fun a => (⟨IssueKind.missingClose, a⟩ : Issue)) := by
        rw [hdet2]; simp
      simp [List.mem_map] at hmem
    · rw [hex] at hdet2
      have hlen := congrArg List.length hdet2
      simp at hlen
      have hex0 : ex' = [] := List.length_eq_zero.mp (by omega)
      have hst0 : (scanAux s 0 [] []).1 = [] := List.length_eq_zero.mp (by omega)
      subst hex0
      rw [hst0] at hdet2
      simp only [List.reverse_nil, List.map_nil, List.append_nil,
        List.reverse_cons, List.map_cons, List.map_nil, List.nil_append,
        List.cons.injEq, Issue.mk.injEq] at hdet2
      have hai : a = i := hdet2.1.2
      exact Prod.ext_iff.mpr ⟨hst0, by rw [hex, hai]⟩
  obtain ⟨A, B, hs, hi, hA, hB⟩ := scan_single_extra s 0 [] [] i hscan
  have hD : scanD B 0 = some 0 := scanD_of_scanAux B (i + 1) [] (i :: []) hB
  exact ⟨A, B, hs, by simpa using hi, hA,
    fun j ex => scanAux_of_scanD B 0 hD j [] ex rfl⟩

theorem not_occursIn_of_hasSub_false {m s : List Char}
    (h : hasSub m s = false) : ¬ OccursIn m s := by
  intro hocc
  rw [(hasSub_iff m s).mpr hocc] at h
  exact absurd h (by simp)

/-- A nonempty end-piece of the marker comment contains its final `/`. -/
theorem slash_mem_of_marker_end {t1 u : List Char}
    (h : markerComment = u ++ t1) (hne : t1 ≠ []) : '/' ∈ t1 := by
  have hrev : markerComment.reverse = t1.reverse ++ u.reverse := by rw [h]; simp
  rcases ht1 : t1.reverse with _ | ⟨c, rest⟩
  · exact absurd (by simpa using congrArg List.reverse ht1) hne
  · have hhd : markerComment.reverse.head? = some c := by
      rw [hrev, ht1]; simp
    have hslash : markerComment.reverse.head? = some '/' := by decide
    have hc : c = '/' := by
      rw [hslash] at hhd
      exact (Option.some.inj hhd).symm
    have : c ∈ t1.reverse := by rw [ht1]; simp
    rw [hc] at this
    exact List.mem_reverse.mp this

/-- A nonempty start-piece of `markerComment ++ R` contains the leading `/`. -/
theorem slash_mem_of_marker_start {t2 w R : List Char}
    (h : markerComment ++ R = t2 ++ w) (hne : t2 ≠ []) : '/' ∈ t2 := by
  rcases t2 with _ | ⟨c, t2'⟩
  · exact absurd rfl hne
  · have h1 : (markerComment ++ R).head? = some '/' := rfl
    rw [h] at h1
    simp at h1
    simp [h1]

/-- A pattern without `/`, not occurring in the marker comment nor in the
two surrounding parts, does not occur in the spliced text. -/
theorem no_marker_in_splice (m A B : List Char)
    (hslash : '/' ∉ m) (hM : hasSub m markerComment = false)
    (hA : ¬ OccursIn m A) (hB : ¬ OccursIn m B) :
    hasSub m (A ++ markerComment ++ B) = false := by
  rcases hcon : hasSub m (A ++ markerComment ++ B) with _ | _
  · rfl
  · exfalso
    have hocc : OccursIn m (A ++ (markerComment ++ B)) := by
      have := (hasSub_iff m (A ++ markerComment ++ B)).mp hcon
      rwa [List.append_assoc] at this
    rcases occursIn_append_cases hocc with h1 | h2 | ⟨t1, t2, hteq, ht1ne, ht2ne, ⟨u, hu⟩, ⟨v, hv⟩⟩
    · exact hA h1
    · rcases occursIn_append_cases h2 with g1 | g2 |
        ⟨t1, t2, hteq, ht1ne, ht2ne, ⟨u, hu⟩, ⟨v, hv⟩⟩
      · rw [(hasSub_iff m markerComment).mpr g1] at hM
        exact absurd hM (by simp)
      · exact hB g2
      · have : '/' ∈ t1 := slash_mem_of_marker_end hu ht1ne
        exact hslash (hteq ▸ List.mem_append.mpr (Or.inl this))
    · have : '/' ∈ t2 := slash_mem_of_marker_start hv ht2ne
      exact hslash (hteq ▸ List.mem_append.mpr (Or.inr this))

/-- Replacing the stray `)` of a marker-free script by the marker comment
keeps the script marker-free: no shader marker contains `/`, none occurs in
the marker comment, and any occurrence crossing a splice border would have
to contain one of the marker comment's outer `/` characters. -/
theorem shader_splice (s A B : List Char) (hs : s = A ++ ')' :: B)
    (h : shaderMarkerCheck s = false) :
    shaderMarkerCheck (A ++ markerComment ++ B) = false := by
  have hs2 : s = (A ++ [')']) ++ B := by rw [hs]; simp
  have hAocc : ∀ m : List Char, hasSub m s = false → ¬ OccursIn m A := by
    intro m hm hA
    exact not_occursIn_of_hasSub_false hm (hs ▸ occursIn_append_left (')' :: B) hA)
  have hBocc : ∀ m : List Char, hasSub m s = false → ¬ OccursIn m B := by
    intro m hm hBm
    exact not_occursIn_of_hasSub_false hm (hs2 ▸ occursIn_append_right (A ++ [')']) hBm)
  have hsplit : ∀ a b : Bool, (a || b) = false → a = false ∧ b = false := by
    intro a b hab
    cases a <;> cases b <;> simp_all
  unfold shaderMarkerCheck at h ⊢
  obtain ⟨h, h6⟩ := hsplit _ _ h
  obtain ⟨h, h5⟩ := hsplit _ _ h
  obtain ⟨h, h4⟩ := hsplit _ _ h
  obtain ⟨h, h3⟩ := hsplit _ _ h
  obtain ⟨h1, h2⟩ := hsplit _ _ h
  have hjoin : ∀ a b : Bool, a = false → b = false → (a || b) = false := by
    intro a b ha hb
    rw [ha, hb]
    rfl
  refine hjoin _ _ (hjoin _ _ (hjoin _ _ (hjoin _ _ (hjoin _ _ ?_ ?_) ?_) ?_) ?_) ?_
  exacts [no_marker_in_splice _ A B (by decide) (by decide) (hAocc _ h1) (hBocc _ h1),
    no_marker_in_splice _ A B (by decide) (by decide) (hAocc _ h2) (hBocc _ h2),
    no_marker_in_splice _ A B (by decide) (by decide) (hAocc _ h3) (hBocc _ h3),
    no_marker_in_splice _ A B (by decide) (by decide) (hAocc _ h4) (hBocc _ h4),
    no_marker_in_splice _ A B (by decide) (by decide) (hAocc _ h5) (hBocc _ h5),
    no_marker_in_splice _ A B (by decide) (by decide) (hAocc _ h6) (hBocc _ h6)]

/-- C10: the deterministic patch is not idempotent for `extra-close`
issues: on a non-shader script whose only delimiter issue is one stray `)`
at index `i`, `fixUnbalanced` replaces that `)` by the marker comment
`/* removed extra ) */` — which itself contains a `)` — and re-running the
detector on the patched output reports an `extra-close` Issue again (at
index `i + 17`, the `)` inside the marker). -/
theorem extra_close_patch_not_idempotent (s : List Char) (i : Nat)
    (hsh : shaderMarkerCheck s = false)
    (hdet : detectUnbalancedParentheses s = [⟨IssueKind.extraClose, i⟩]) :
    (fixUnbalanced s).1 = s.take i ++ markerComment ++ s.drop (i + 1) ∧
    detectUnbalancedParentheses (fixUnbalanced s).1 =
      [⟨IssueKind.extraClose, i + 17⟩] := by
  obtain ⟨A, B, hs, hi, hA, hB⟩ := detect_single_extra_decomp s i hsh hdet
  have htake : s.take i = A := by
    rw [hs, hi]
    exact List.take_left A (')' :: B)
  have hdrop : s.drop (i + 1) = B := by
    rw [hi, show s = (A ++ [')']) ++ B from by rw [hs]; simp,
      show A.length + 1 = (A ++ [')']).length from by simp]
    exact List.drop_left (A ++ [')']) B
  have hfix1 : (fixUnbalanced s).1 = s.take i ++ markerComment ++ s.drop (i + 1) := by
    show fixLoop s 0 (detectUnbalancedParentheses s) = _
    rw [hdet]
    simp [fixLoop]
  refine ⟨hfix1, ?_⟩
  rw [hfix1, htake, hdrop]
  have hshp : shaderMarkerCheck (A ++ markerComment ++ B) = false :=
    shader_splice s A B hs hsh
  have hscan : scanAux (A ++ markerComment ++ B) 0 [] [] = ([], [i + 17]) := by
    rw [List.append_assoc, scan_append A (markerComment ++ B) 0 [] [], hA,
      scan_append markerComment B _ [] [], scan_marker, hB]
    simp [hi]
  have hshp2 : shaderMarkerCheck (A ++ (markerComment ++ B)) = false := by
    rw [← List.append_assoc]
    exact hshp
  unfold detectUnbalancedParentheses
  rw [if_neg (by simp [hshp, hshp2]), hscan]
  simp

/-- Witness for `extra_close_patch_not_idempotent` at the script `x)`. -/
theorem extra_close_patch_not_idempotent_witness :
    shaderMarkerCheck ("x)".toList) = false ∧
    detectUnbalancedParentheses ("x)".toList) = [⟨IssueKind.extraClose, 1⟩] ∧
    detectUnbalancedParentheses (fixUnbalanced ("x)".toList)).1 =
      [⟨IssueKind.extraClose, 18⟩] :=
  ⟨by decide, by decide,
    (extra_close_patch_not_idempotent ("x)".toList) 1 (by decide) (by decide)).2⟩

end ValidateHtml
